import Mathlib

/-!
Verification of the "Resonance" interactive ripple/tone application.

The development shallowly embeds the four source files:
* `constants.ts`        — fixed configuration tables;
* `services/AudioService.ts` — the audio engine and tone synthesizer;
* `components/RippleCanvas.tsx` — the ripple entity and its render loop;
* `App.tsx`             — the trigger dispatcher wiring four input sources.

Numbers are modelled as rationals (`ℚ`); frame counters as naturals.
External platform services (the audio context construction, `Math.random`,
`JSON.parse`, canvas bounds) enter as explicit parameters whose values the
platform chooses; everything else is translated directly from the source.
-/

namespace Resonance

/-! ## constants.ts -/

/-- A note of the fixed scale: `AudioNote` from `types.ts`. -/
structure AudioNote where
  freq : ℚ
  name : String
deriving DecidableEq, Repr

/-- The D minor pentatonic scale table from `constants.ts`. -/
def PENTATONIC_SCALE : List AudioNote :=
  [⟨293.66, "D4"⟩, ⟨349.23, "F4"⟩, ⟨392.00, "G4"⟩, ⟨440.00, "A4"⟩, ⟨523.25, "C5"⟩]

/-- Visual configuration record from `constants.ts`. -/
structure VisualConfig where
  bgColor : String
  rippleColor : String
  maxRadius : ℚ
  expansionDuration : ℚ
  frameCountToMax : ℕ
deriving DecidableEq, Repr

/-- `VISUAL_CONFIG` from `constants.ts`. -/
def VISUAL_CONFIG : VisualConfig :=
  ⟨"#C3D0E3", "255, 255, 255", 80, 1500, 90⟩

/-- Signal-bridge configuration from `constants.ts`. -/
structure SignalConfig where
  oscPort : ℕ
  oscAddress : String
deriving DecidableEq, Repr

/-- `SIGNAL_CONFIG` from `constants.ts`. -/
def SIGNAL_CONFIG : SignalConfig := ⟨8000, "/sensor/vibration"⟩

/-! ## AudioService

The platform `AudioContext` is external: we record only its state
(`running` or `suspended`; the code never closes a context).  A fresh
context starts in a platform-chosen state, and `resume()` succeeds or not
as the platform chooses; both choices are passed in as a `Platform`
record.  To audit resource usage the model counts how many context handles
have ever been constructed. -/

/-- State of a constructed platform audio context. -/
inductive CtxState where
  | running
  | suspended
deriving DecidableEq, Repr

/-- The observable engine state, as returned by `getContextState()`:
the state of the context when one exists, otherwise `uninitialized`. -/
inductive EngineState where
  | uninitialized
  | running
  | suspended
deriving DecidableEq, Repr

/-- An envelope automation event scheduled on the gain node. -/
inductive EnvEvent where
  | setValue (v t : ℚ)
  | linearRamp (v t : ℚ)
  | expRamp (v t : ℚ)
deriving DecidableEq, Repr

/-- One synthesized voice: oscillator frequency, the scheduled gain
envelope, and the scheduled start and stop times of the oscillator. -/
structure Voice where
  freq : ℚ
  envelope : List EnvEvent
  startAt : ℚ
  stopAt : ℚ
deriving DecidableEq, Repr

/-- `AudioService.playTone(frequency)` at context time `t`: builds the
oscillator/gain pair and schedules the fixed envelope
(`duration = 1.5`, stop at `t + duration + 0.1`). -/
def playTone (t frequency : ℚ) : Voice :=
  { freq := frequency
    envelope :=
      [EnvEvent.setValue 0 t,
       EnvEvent.linearRamp 0.8 (t + 0.05),
       EnvEvent.expRamp 0.001 (t + 1.5)]
    startAt := t
    stopAt := t + 1.5 + 0.1 }

/-- Fields of the `AudioService` singleton, plus a ghost counter of how
many context handles were ever constructed. -/
structure AudioService where
  context : Option CtxState
  isEnabled : Bool
  handlesCreated : ℕ
deriving DecidableEq, Repr

/-- The service as constructed at module load: no context, disabled. -/
def AudioService.initial : AudioService := ⟨none, false, 0⟩

/-- Platform choices consumed by one `init()` call: the state a freshly
constructed context starts in, and whether a `resume()` request is
confirmed. -/
structure Platform where
  newCtxState : CtxState
  resumeOk : Bool
deriving DecidableEq, Repr

/-- `AudioService.init()`: constructs the context on first call, then
issues `resume()` whenever the context is suspended. -/
def AudioService.init (p : Platform) (s : AudioService) : AudioService :=
  let s1 : AudioService :=
    if s.context = none then
      ⟨some p.newCtxState, true, s.handlesCreated + 1⟩
    else s
  if s1.context = some CtxState.suspended ∧ p.resumeOk then
    ⟨some CtxState.running, s1.isEnabled, s1.handlesCreated⟩
  else s1

/-- `AudioService.getContextState()`. -/
def AudioService.state (s : AudioService) : EngineState :=
  match s.context with
  | none => EngineState.uninitialized
  | some CtxState.running => EngineState.running
  | some CtxState.suspended => EngineState.suspended

/-- `AudioService.playRandomNote()` with the `Math.random()` draw `rand`
passed in and the context clock at `now`; returns the voices created by
the call (empty when the guard returns early). -/
def AudioService.playRandomNote (s : AudioService) (now rand : ℚ) : List Voice :=
  if s.context = none ∨ s.isEnabled = false then []
  else
    let randomIndex : ℕ := Int.toNat ⌊rand * (PENTATONIC_SCALE.length : ℚ)⌋
    let note := PENTATONIC_SCALE.getD randomIndex ⟨0, ""⟩
    [playTone now note.freq]

/-! ## RippleCanvas.tsx — the ripple entity

Drawing-context calls have no effect on entity or field state; the render
pass instead records, for each `draw` call, the entity state it was drawn
with.  The derived radius and opacity are functions of that state. -/

/-- The `Ripple` class fields. -/
structure Ripple where
  x : ℚ
  y : ℚ
  age : ℕ
  maxAge : ℕ
  active : Bool
deriving DecidableEq, Repr

/-- The `Ripple` constructor: age 0, `maxAge = 100` frames, active. -/
def Ripple.create (x y : ℚ) : Ripple := ⟨x, y, 0, 100, true⟩

/-- `Ripple.update()`: increment age; deactivate once age exceeds maxAge. -/
def Ripple.update (r : Ripple) : Ripple :=
  { r with
    age := r.age + 1
    active := if r.age + 1 > r.maxAge then false else r.active }

/-- Normalized progress `age / maxAge` computed in `Ripple.draw`. -/
def Ripple.progress (r : Ripple) : ℚ := (r.age : ℚ) / (r.maxAge : ℚ)

/-- `currentRadius` computed in `Ripple.draw`:
`5 + (VISUAL_CONFIG.maxRadius - 5) * progress`. -/
def Ripple.currentRadius (r : Ripple) : ℚ :=
  5 + (VISUAL_CONFIG.maxRadius - 5) * r.progress

/-- The opacity computed in `Ripple.draw`: `0.8 * (1 - progress)`,
clamped below at 0. -/
def Ripple.opacity (r : Ripple) : ℚ :=
  max 0 (0.8 * (1 - r.progress))

/-! ## RippleCanvas.tsx — the render pass

The animation loop iterates the ripple array backwards; at each index it
updates the entity in place, draws it, and splices it out when inactive.
`passAt` is one loop body at index `i`; `renderPass` runs the indices
`i = n-1, n-2, …, 0`; `render` is one full frame pass.  The second
component accumulates the draw records in the order the draws happen. -/

/-- One body of the backwards loop, at index `i`: update `arr[i]` in
place, record its draw, and splice it out when inactive. -/
def passAt (l : List Ripple) (draws : List Ripple) (i : ℕ) :
    List Ripple × List Ripple :=
  match l[i]? with
  | none => (l, draws)
  | some r =>
    let r2 := r.update
    if r2.active then (l.set i r2, draws ++ [r2])
    else ((l.set i r2).eraseIdx i, draws ++ [r2])

/-- The backwards loop: runs `passAt` at `i-1, i-2, …, 0`. -/
def renderPass : List Ripple × List Ripple → ℕ → List Ripple × List Ripple
  | ld, 0 => ld
  | (l, d), i + 1 => renderPass (passAt l d i) i

/-- One full render frame over the ripple collection. -/
def render (l : List Ripple) : List Ripple × List Ripple :=
  renderPass (l, []) l.length

/-! ## RippleCanvas.tsx — `addRipple`

`Math.random()` draws and the mounted canvas are external; the canvas is
`none` when unmounted.  `rx`, `ry` are the two `Math.random()` values that
would be consumed when a coordinate is absent. -/

/-- Pixel bounds of the mounted canvas element. -/
structure Canvas where
  width : ℚ
  height : ℚ
deriving DecidableEq, Repr

/-- `addRipple(x?, y?)` exposed through the imperative handle: bail out
when the canvas is unmounted, otherwise append one fresh ripple, defaulting
each missing coordinate to `Math.random()` times the canvas bound. -/
def addRipple (canvas : Option Canvas) (x y : Option ℚ) (rx ry : ℚ)
    (field : List Ripple) : List Ripple :=
  match canvas with
  | none => field
  | some c =>
    let targetX := x.getD (rx * c.width)
    let targetY := y.getD (ry * c.height)
    field ++ [Ripple.create targetX targetY]

/-! ## App.tsx — the trigger dispatcher

`App` holds the `audioReady` flag, the audio service singleton, the
canvas handle, the ripple collection behind it, and the debug message.
The MIDI and WebSocket effects bail out (`if (!audioReady) return`)
while locked, so those sources deliver nothing until unlocked; we fold
that guard into the event step.  `JSON.parse` is external: a bridged
text message carries its parse outcome — `none` when parsing throws,
`some a` when it parses, `a` being the optional `address` field of the value. -/

/-- Whether `event.data.includes(sub)` holds for the raw text. -/
def strIncludes (s sub : String) : Bool := decide (sub.toList <:+: s.toList)

/-- Dispatcher-visible application state. -/
structure AppState where
  audioReady : Bool
  audio : AudioService
  canvas : Option Canvas
  field : List Ripple
  debugMsg : String
deriving DecidableEq, Repr

/-- One normalized trigger record: optional coordinates plus source tag. -/
structure Trigger where
  x : Option ℚ
  y : Option ℚ
  source : String
deriving DecidableEq, Repr

/-- Platform draws consumed by one event step: audio-platform choices,
the context clock, the note draw, and the two coordinate draws. -/
structure Env where
  platform : Platform
  now : ℚ
  rand : ℚ
  rx : ℚ
  ry : ℚ
deriving DecidableEq, Repr

/-- The five event sources feeding the dispatcher.  A bridged message
carries its `JSON.parse` outcome (`none` = parse threw) alongside the
raw text. -/
inductive Ev where
  | click (x y : ℚ)
  | keydown (code : String)
  | startButton
  | midi (status note velocity : ℕ)
  | wsMsg (parsed : Option (Option String)) (raw : String)
deriving DecidableEq, Repr

/-- Result of one event step: the new state, the triggers fired, and the
voices synthesized. -/
structure StepOut where
  state : AppState
  triggers : List Trigger
  voices : List Voice
deriving DecidableEq, Repr

/-- `triggerEffect(x?, y?, source)`: set the debug message, spawn the
ripple, and play a note when the context state is `running`. -/
def triggerEffect (s : AppState) (env : Env) (x y : Option ℚ)
    (source : String) : StepOut :=
  let field2 := addRipple s.canvas x y env.rx env.ry s.field
  let voices :=
    if s.audio.state = EngineState.running then
      s.audio.playRandomNote env.now env.rand
    else []
  { state := { s with field := field2, debugMsg := "Trigger: " ++ source }
    triggers := [⟨x, y, source⟩]
    voices := voices }

/-- `startExperience()`: initialize the audio service and, when the
context reports running or suspended, set `audioReady`. -/
def startExperience (s : AppState) (env : Env) : AppState :=
  let audio2 := s.audio.init env.platform
  if audio2.state = EngineState.running ∨ audio2.state = EngineState.suspended then
    { s with audio := audio2, audioReady := true
             debugMsg := "Audio Engine Active. Listening for Signals..." }
  else { s with audio := audio2 }

/-- The condition `socket.onmessage` tests before triggering: the parsed
address equals `SIGNAL_CONFIG.oscAddress`, or — when parsing threw — the
raw text contains the keyword. -/
def wsMatches (parsed : Option (Option String)) (raw : String) : Bool :=
  match parsed with
  | some a => a = some SIGNAL_CONFIG.oscAddress
  | none => strIncludes raw "vibration"

/-- One dispatcher step for one incoming event. -/
def step (s : AppState) (e : Ev) (env : Env) : StepOut :=
  match e with
  | Ev.click x y =>
    let s1 := if s.audioReady then s else startExperience s env
    triggerEffect s1 env (some x) (some y) "Click"
  | Ev.keydown code =>
    if code = "Space" ∨ code = "Enter" then
      let s1 := if s.audioReady then s else startExperience s env
      triggerEffect s1 env none none "Keyboard"
    else ⟨s, [], []⟩
  | Ev.startButton => ⟨startExperience s env, [], []⟩
  | Ev.midi status note velocity =>
    if s.audioReady ∧ status &&& 0xF0 = 0x90 ∧ velocity > 0 then
      triggerEffect s env none none ("MIDI Note " ++ toString note)
    else ⟨s, [], []⟩
  | Ev.wsMsg parsed raw =>
    if s.audioReady ∧ wsMatches parsed raw then
      triggerEffect s env none none "OSC Signal"
    else ⟨s, [], []⟩

/-! ## Operation sequences

For lifetime claims we run the audio service, respectively the ripple
field, over an arbitrary sequence of operations. -/

/-- Operations the program performs on the audio service singleton:
`init()` calls (each with its platform choices) and `playRandomNote()`
calls (each with its clock reading and random draw). -/
inductive EngineOp where
  | init (p : Platform)
  | play (now rand : ℚ)
deriving DecidableEq, Repr

/-- State effect of one audio-service operation.  `playRandomNote` only
reads the service fields (its output is the voice list), so the service
state passes through unchanged, exactly as in the source. -/
def applyEngineOp (s : AudioService) : EngineOp → AudioService
  | EngineOp.init p => s.init p
  | EngineOp.play _ _ => s

/-- The audio service after a sequence of operations from module load. -/
def runEngine (ops : List EngineOp) : AudioService :=
  ops.foldl applyEngineOp AudioService.initial

/-- Operations on the ripple field: a spawn (with its optional
coordinates and the two random draws) or one render frame. -/
inductive FOp where
  | spawn (x y : Option ℚ) (rx ry : ℚ)
  | frame
deriving DecidableEq, Repr

/-- State effect of one field operation on a mounted canvas `c`. -/
def applyFOp (c : Canvas) (l : List Ripple) : FOp → List Ripple
  | FOp.spawn x y rx ry => addRipple (some c) x y rx ry l
  | FOp.frame => (render l).1

/-- The ripple field after a sequence of operations, starting empty. -/
def runField (c : Canvas) (ops : List FOp) : List Ripple :=
  ops.foldl (applyFOp c) []

/-- Whether a field operation is a render frame. -/
def FOp.isFrame : FOp → Bool
  | FOp.frame => true
  | _ => false

/-- Number of render frames in a sequence. -/
def countFrames (ops : List FOp) : ℕ := ops.countP FOp.isFrame

/-- For each spawn of the sequence, in order, the number of render frames
that follow it — the age the entity of that spawn would have reached. -/
def spawnElapsed : List FOp → List ℕ
  | [] => []
  | FOp.spawn _ _ _ _ :: rest => countFrames rest :: spawnElapsed rest
  | FOp.frame :: rest => spawnElapsed rest

/-! ## The render pass processes every entity exactly once

The backwards index loop with in-place splice is equivalent to: update
every entity once, keep exactly the still-active ones in order, and draw
every updated entity exactly once. -/

lemma getElem?_append_cons (l m : List Ripple) (r : Ripple) :
    (l ++ r :: m)[l.length]? = some r := by
  induction l with
  | nil => simp
  | cons a t ih => simpa using ih

lemma set_append_cons (l m : List Ripple) (r x : Ripple) :
    (l ++ r :: m).set l.length x = l ++ x :: m := by
  induction l with
  | nil => simp
  | cons a t ih => simp [List.set, ih]

lemma eraseIdx_append_cons (l m : List Ripple) (r : Ripple) :
    (l ++ r :: m).eraseIdx l.length = l ++ m := by
  induction l with
  | nil => rfl
  | cons a t ih => simpa [List.eraseIdx] using ih

lemma renderPass_spec (l : List Ripple) :
    ∀ m d, renderPass (l ++ m, d) l.length =
      ((l.map Ripple.update).filter (fun r => r.active) ++ m,
        d ++ (l.map Ripple.update).reverse) := by
  induction l using List.reverseRecOn with
  | nil => intro m d; simp [renderPass]
  | append_singleton t r ih =>
    intro m d
    have hlen : (t ++ [r]).length = t.length + 1 := by simp
    rw [hlen]
    show renderPass (passAt (t ++ [r] ++ m) d t.length) t.length = _
    have hsplit : t ++ [r] ++ m = t ++ r :: m := by simp
    rw [hsplit]
    unfold passAt
    rw [getElem?_append_cons]
    by_cases hact : r.update.active
    · simp only [hact, if_true, set_append_cons]
      rw [ih (r.update :: m) (d ++ [r.update])]
      simp [hact]
    · simp only [hact, if_false, Bool.false_eq_true, set_append_cons,
        eraseIdx_append_cons]
      rw [ih m (d ++ [r.update])]
      simp [hact]

/-- One render frame = update each entity once, keep the active ones in
order, draw each updated entity exactly once. -/
lemma render_spec (l : List Ripple) :
    render l = ((l.map Ripple.update).filter (fun r => r.active),
      (l.map Ripple.update).reverse) := by
  have h := renderPass_spec l [] []
  simpa [render] using h

/-! ## Concrete example states used by the witnesses -/

/-- An 800×600 mounted canvas. -/
def canvasEx : Canvas := ⟨800, 600⟩

/-- The audio service after a successful start: running context, enabled. -/
def audioRunningEx : AudioService := ⟨some CtxState.running, true, 1⟩

/-- An unlocked application state. -/
def readyStateEx : AppState := ⟨true, audioRunningEx, some canvasEx, [], ""⟩

/-- A locked application state, before any user gesture. -/
def lockedStateEx : AppState := ⟨false, AudioService.initial, some canvasEx, [], ""⟩

/-- A fixed environment: the platform starts contexts running and confirms
resumes; all random draws are 0; the context clock reads 0. -/
def envEx : Env := ⟨⟨CtxState.running, true⟩, 0, 0, 0, 0⟩

/-! ## Claims -/

/-- C7: every voice produced by `playTone` schedules amplitude 0 at its
start time `t0`, a linear ramp to 0.8 at `t0 + 0.05`, an exponential decay
whose target is the strictly positive floor 0.001 (never exactly 0) at
`t0 + 1.5`, and stops the oscillator at `t0 + 1.6`, so the scheduled lifetime of the voice never exceeds that window. -/
theorem claim_C7_envelope (t0 f : ℚ) :
    playTone t0 f =
      { freq := f
        envelope :=
          [EnvEvent.setValue 0 t0,
           EnvEvent.linearRamp 0.8 (t0 + 0.05),
           EnvEvent.expRamp 0.001 (t0 + 1.5)]
        startAt := t0
        stopAt := t0 + 1.6 } ∧
    (0 : ℚ) < 0.001 ∧
    (playTone t0 f).stopAt - (playTone t0 f).startAt = 1.6 := by
  refine ⟨?_, by norm_num, ?_⟩
  · simp only [playTone, Voice.mk.injEq, and_true, true_and]
    ring
  · simp only [playTone]
    ring

/-- C9: once unlocked, a MIDI message produces exactly one trigger iff its
status byte has high nibble 0x9 (note-on, any channel) and its velocity
byte is nonzero; otherwise the step is a complete no-op. -/
theorem claim_C9_midi (s : AppState) (env : Env) (st n v : ℕ)
    (hready : s.audioReady = true) (hb : st < 256) :
    ((step s (Ev.midi st n v) env).triggers.length = 1 ↔ st / 16 = 9 ∧ v ≠ 0) ∧
    (¬(st / 16 = 9 ∧ v ≠ 0) → step s (Ev.midi st n v) env = ⟨s, [], []⟩) := by
  have hnib : (st &&& 0xF0 = 0x90) ↔ st / 16 = 9 :=
    (by set_option maxRecDepth 8000 in decide :
      ∀ x : Fin 256, ((x : ℕ) &&& 0xF0 = 0x90 ↔ (x : ℕ) / 16 = 9)) ⟨st, hb⟩
  by_cases hc : st / 16 = 9 ∧ v ≠ 0
  · have hcond : s.audioReady = true ∧ st &&& 0xF0 = 0x90 ∧ v > 0 :=
      ⟨hready, hnib.mpr hc.1, Nat.pos_of_ne_zero hc.2⟩
    simp only [step]
    rw [if_pos hcond]
    exact ⟨by simp [triggerEffect, hc], fun h => absurd hc h⟩
  · have hcond : ¬(s.audioReady = true ∧ st &&& 0xF0 = 0x90 ∧ v > 0) := by
      rintro ⟨h1, h2, h3⟩
      exact hc ⟨hnib.mp h2, Nat.pos_iff_ne_zero.mp h3⟩
    simp only [step]
    rw [if_neg hcond]
    exact ⟨by simp [hc], fun _ => rfl⟩

/-- C9 witness: `[0x90, 60, 100]` fires exactly one trigger, while
`[0x90, 60, 0]` and `[0x80, 60, 100]` leave the state untouched and fire
none. -/
theorem claim_C9_midi_witness :
    (step readyStateEx (Ev.midi 144 60 100) envEx).triggers.length = 1 ∧
    step readyStateEx (Ev.midi 144 60 0) envEx = ⟨readyStateEx, [], []⟩ ∧
    step readyStateEx (Ev.midi 128 60 100) envEx = ⟨readyStateEx, [], []⟩ :=
  ⟨(claim_C9_midi readyStateEx envEx 144 60 100 rfl (by decide)).1.mpr
      (by decide),
   (claim_C9_midi readyStateEx envEx 144 60 0 rfl (by decide)).2 (by decide),
   (claim_C9_midi readyStateEx envEx 128 60 100 rfl (by decide)).2 (by decide)⟩

/-- C8: once unlocked, a bridged text message that parses as JSON triggers
exactly once iff its address field equals the configured target address,
with no fallback when the address differs (the step is then a complete
no-op); a message whose parse throws triggers exactly once iff the raw
text contains the substring "vibration". -/
theorem claim_C8_bridge (s : AppState) (env : Env)
    (hready : s.audioReady = true) :
    (∀ a raw, (step s (Ev.wsMsg (some a) raw) env).triggers.length =
        if a = some SIGNAL_CONFIG.oscAddress then 1 else 0) ∧
    (∀ a raw, a ≠ some SIGNAL_CONFIG.oscAddress →
        step s (Ev.wsMsg (some a) raw) env = ⟨s, [], []⟩) ∧
    (∀ raw, (step s (Ev.wsMsg none raw) env).triggers.length =
        if strIncludes raw "vibration" = true then 1 else 0) := by
  refine ⟨?_, ?_, ?_⟩
  · intro a raw
    by_cases ha : a = some SIGNAL_CONFIG.oscAddress
    · have hcond : s.audioReady = true ∧ wsMatches (some a) raw = true :=
        ⟨hready, by simp [wsMatches, ha]⟩
      simp only [step]
      rw [if_pos hcond, if_pos ha]
      simp [triggerEffect]
    · have hcond : ¬(s.audioReady = true ∧ wsMatches (some a) raw = true) := by
        rintro ⟨h1, h2⟩
        simp [wsMatches, ha] at h2
      simp only [step]
      rw [if_neg hcond, if_neg ha]
      rfl
  · intro a raw ha
    have hcond : ¬(s.audioReady = true ∧ wsMatches (some a) raw = true) := by
      rintro ⟨h1, h2⟩
      simp [wsMatches, ha] at h2
    simp only [step]
    rw [if_neg hcond]
  · intro raw
    by_cases hv : strIncludes raw "vibration" = true
    · have hcond : s.audioReady = true ∧ wsMatches none raw = true :=
        ⟨hready, by simp [wsMatches, hv]⟩
      simp only [step]
      rw [if_pos hcond, if_pos hv]
      simp [triggerEffect]
    · have hcond : ¬(s.audioReady = true ∧ wsMatches none raw = true) := by
        rintro ⟨h1, h2⟩
        simp [wsMatches] at h2
        exact hv h2
      simp only [step]
      rw [if_neg hcond, if_neg hv]
      rfl

/-- C8 witness: the parsed message addressed `/sensor/vibration` fires one
trigger; the parsed message addressed `/other` is a complete no-op; the
unparseable raw text "random vibration alert" fires one trigger via the
substring fallback. -/
theorem claim_C8_bridge_witness :
    (step readyStateEx
        (Ev.wsMsg (some (some "/sensor/vibration")) "") envEx).triggers.length
      = 1 ∧
    step readyStateEx (Ev.wsMsg (some (some "/other")) "") envEx =
      ⟨readyStateEx, [], []⟩ ∧
    (step readyStateEx
        (Ev.wsMsg none "random vibration alert") envEx).triggers.length = 1 :=
  ⟨((claim_C8_bridge readyStateEx envEx rfl).1
      (some "/sensor/vibration") "").trans (by decide),
   (claim_C8_bridge readyStateEx envEx rfl).2.1 (some "/other") "" (by decide),
   ((claim_C8_bridge readyStateEx envEx rfl).2.2
      "random vibration alert").trans (by decide)⟩

/-- C10: `addRipple` with no mounted canvas returns the field unchanged;
with a mounted canvas it appends exactly one entity at age 0, placed at the
given coordinates when supplied and otherwise at an independent random
draw scaled into the canvas bounds (hence strictly inside them). -/
theorem claim_C10_addRipple :
    (∀ x y rx ry field, addRipple none x y rx ry field = field) ∧
    (∀ c x y rx ry field, ∃ p q,
      addRipple (some c) x y rx ry field = field ++ [Ripple.create p q] ∧
      (Ripple.create p q).age = 0 ∧ (Ripple.create p q).active = true ∧
      (∀ a, x = some a → p = a) ∧ (∀ b, y = some b → q = b) ∧
      (x = none → p = rx * c.width) ∧ (y = none → q = ry * c.height) ∧
      (x = none → 0 ≤ rx → rx < 1 → 0 < c.width → 0 ≤ p ∧ p < c.width) ∧
      (y = none → 0 ≤ ry → ry < 1 → 0 < c.height → 0 ≤ q ∧ q < c.height)) := by
  constructor
  · intro x y rx ry field
    rfl
  · intro c x y rx ry field
    refine ⟨x.getD (rx * c.width), y.getD (ry * c.height), rfl, rfl, rfl,
      ?_, ?_, ?_, ?_, ?_, ?_⟩
    · intro a ha; rw [ha]; rfl
    · intro b hb; rw [hb]; rfl
    · intro hx; rw [hx]; rfl
    · intro hy; rw [hy]; rfl
    · intro hx h0 h1 hw
      rw [hx]
      simp only [Option.getD_none]
      constructor
      · exact mul_nonneg h0 hw.le
      · calc rx * c.width < 1 * c.width := by
              exact mul_lt_mul_of_pos_right h1 hw
          _ = c.width := one_mul _
    · intro hy h0 h1 hh
      rw [hy]
      simp only [Option.getD_none]
      constructor
      · exact mul_nonneg h0 hh.le
      · calc ry * c.height < 1 * c.height := by
              exact mul_lt_mul_of_pos_right h1 hh
          _ = c.height := one_mul _

/-- C10 witness: on the unmounted canvas nothing is appended; on the
mounted 800×600 canvas a call with explicit coordinates appends that exact
entity, and a call with no coordinates and draws (1/2, 1/4) appends the
entity at (400, 150), inside the bounds. -/
theorem claim_C10_addRipple_witness :
    addRipple none (some 3) (some 4) 0 0 [] = [] ∧
    (∃ p q,
      addRipple (some canvasEx) none none (1/2) (1/4) [] =
        [] ++ [Ripple.create p q] ∧
      (Ripple.create p q).age = 0 ∧ (Ripple.create p q).active = true ∧
      (∀ a, (none : Option ℚ) = some a → p = a) ∧
      (∀ b, (none : Option ℚ) = some b → q = b) ∧
      ((none : Option ℚ) = none → p = (1/2) * canvasEx.width) ∧
      ((none : Option ℚ) = none → q = (1/4) * canvasEx.height) ∧
      ((none : Option ℚ) = none → 0 ≤ (1/2 : ℚ) → (1/2 : ℚ) < 1 →
        0 < canvasEx.width → 0 ≤ p ∧ p < canvasEx.width) ∧
      ((none : Option ℚ) = none → 0 ≤ (1/4 : ℚ) → (1/4 : ℚ) < 1 →
        0 < canvasEx.height → 0 ≤ q ∧ q < canvasEx.height)) :=
  ⟨claim_C10_addRipple.1 (some 3) (some 4) 0 0 [],
   claim_C10_addRipple.2 canvasEx none none (1/2) (1/4) []⟩

/-- C4: while the dispatcher is locked (`audioReady = false`), MIDI and
bridged-signal events are complete no-ops — no trigger, no spawn, no
voice, no state change, in particular no unlock — and any event whose
step unlocks the dispatcher is a pointer click, a keyboard event, or the
start-button click (itself a pointer gesture). -/
theorem claim_C4_locked (s : AppState) (env : Env)
    (hlocked : s.audioReady = false) :
    (∀ st n v, step s (Ev.midi st n v) env = ⟨s, [], []⟩) ∧
    (∀ parsed raw, step s (Ev.wsMsg parsed raw) env = ⟨s, [], []⟩) ∧
    (∀ e, (step s e env).state.audioReady = true →
      (∃ x y, e = Ev.click x y) ∨ (∃ c, e = Ev.keydown c) ∨
        e = Ev.startButton) := by
  refine ⟨?_, ?_, ?_⟩
  · intro st n v
    have hcond : ¬(s.audioReady = true ∧ st &&& 0xF0 = 0x90 ∧ v > 0) := by
      rintro ⟨h1, -, -⟩
      rw [hlocked] at h1
      exact Bool.false_ne_true h1
    simp only [step]
    rw [if_neg hcond]
  · intro parsed raw
    have hcond : ¬(s.audioReady = true ∧ wsMatches parsed raw = true) := by
      rintro ⟨h1, -⟩
      rw [hlocked] at h1
      exact Bool.false_ne_true h1
    simp only [step]
    rw [if_neg hcond]
  · intro e _h
    match e with
    | Ev.click x y => exact Or.inl ⟨x, y, rfl⟩
    | Ev.keydown c => exact Or.inr (Or.inl ⟨c, rfl⟩)
    | Ev.startButton => exact Or.inr (Or.inr rfl)
    | Ev.midi st n v =>
      have hcond : ¬(s.audioReady = true ∧ st &&& 0xF0 = 0x90 ∧ v > 0) := by
        rintro ⟨h1, -, -⟩
        rw [hlocked] at h1
        exact Bool.false_ne_true h1
      rw [show step s (Ev.midi st n v) env = ⟨s, [], []⟩ from by
        simp only [step]; rw [if_neg hcond]] at _h
      rw [hlocked] at _h
      exact absurd _h Bool.false_ne_true
    | Ev.wsMsg parsed raw =>
      have hcond : ¬(s.audioReady = true ∧ wsMatches parsed raw = true) := by
        rintro ⟨h1, -⟩
        rw [hlocked] at h1
        exact Bool.false_ne_true h1
      rw [show step s (Ev.wsMsg parsed raw) env = ⟨s, [], []⟩ from by
        simp only [step]; rw [if_neg hcond]] at _h
      rw [hlocked] at _h
      exact absurd _h Bool.false_ne_true

/-- C4 witness: from the locked state, a well-formed note-on MIDI message
and a correctly addressed bridged message are both complete no-ops, while
a pointer click does unlock and is classified as a click. -/
theorem claim_C4_locked_witness :
    step lockedStateEx (Ev.midi 144 60 100) envEx = ⟨lockedStateEx, [], []⟩ ∧
    step lockedStateEx (Ev.wsMsg (some (some "/sensor/vibration")) "") envEx =
      ⟨lockedStateEx, [], []⟩ ∧
    ((∃ x y, (Ev.click 100 200 : Ev) = Ev.click x y) ∨
      (∃ c, (Ev.click 100 200 : Ev) = Ev.keydown c) ∨
      (Ev.click 100 200 : Ev) = Ev.startButton) :=
  ⟨(claim_C4_locked lockedStateEx envEx rfl).1 144 60 100,
   (claim_C4_locked lockedStateEx envEx rfl).2.1
      (some (some "/sensor/vibration")) "",
   (claim_C4_locked lockedStateEx envEx rfl).2.2 (Ev.click 100 200)
      (by decide)⟩

/-! ## Reachable audio-service states

`init()` sets `isEnabled` exactly when it constructs the context, so on
every reachable service state the two agree, and the ghost handle counter
is 1 exactly when a context exists. -/

/-- Invariant of every reachable audio-service state. -/
def EngineInv (s : AudioService) : Prop :=
  s.isEnabled = s.context.isSome ∧
  s.handlesCreated = if s.context.isSome then 1 else 0

lemma engineInv_initial : EngineInv AudioService.initial := by
  constructor <;> rfl

lemma engineInv_init (p : Platform) (s : AudioService) (h : EngineInv s) :
    EngineInv (s.init p) := by
  obtain ⟨ctx, en, hc⟩ := s
  obtain ⟨h1, h2⟩ := h
  simp only [EngineInv] at h1 h2 ⊢
  cases ctx with
  | none =>
    simp only [Option.isSome_none, Bool.false_eq_true, if_false] at h1 h2
    subst h1 h2
    simp only [AudioService.init]
    split_ifs <;> simp_all
  | some c =>
    simp only [Option.isSome_some, if_true] at h1 h2
    subst h1 h2
    cases c <;> simp only [AudioService.init] <;> split_ifs <;> simp_all

lemma engineInv_apply (op : EngineOp) (s : AudioService) (h : EngineInv s) :
    EngineInv (applyEngineOp s op) := by
  cases op with
  | init p => exact engineInv_init p s h
  | play now rand => exact h

lemma engineInv_run (ops : List EngineOp) : EngineInv (runEngine ops) := by
  have key : ∀ (l : List EngineOp) (s : AudioService),
      EngineInv s → EngineInv (l.foldl applyEngineOp s) := by
    intro l
    induction l with
    | nil => intro s h; exact h
    | cons o t ih => intro s h; exact ih _ (engineInv_apply o s h)
  exact key ops _ engineInv_initial

lemma runEngine_concat (ops : List EngineOp) (op : EngineOp) :
    runEngine (ops ++ [op]) = applyEngineOp (runEngine ops) op := by
  simp [runEngine, List.foldl_append]

/-- C1 counterexample: after an `init()` on a platform that defers the
context start and has not confirmed the resume, the engine reports
Suspended — not Running — yet `playRandomNote()` still synthesizes a
voice (an oscillator/gain pair added to the graph), so the call is not a
no-op outside the Running state. -/
theorem claim_C1_counterexample :
    (AudioService.init ⟨CtxState.suspended, false⟩ AudioService.initial).state
      = EngineState.suspended ∧
    (AudioService.init ⟨CtxState.suspended, false⟩
        AudioService.initial).playRandomNote 0 0 =
      [playTone 0 293.66] ∧
    [playTone 0 (293.66 : ℚ)] ≠ [] := by
  refine ⟨rfl, ?_, by decide⟩
  show AudioService.playRandomNote ⟨some CtxState.suspended, true, 1⟩ 0 0 = _
  simp [AudioService.playRandomNote, PENTATONIC_SCALE]

/-- C1 amended: on every reachable service state, `playRandomNote()` is a
no-op exactly when the engine is Uninitialized — the guard tests context
existence, not the Running state — and whenever a context exists, Running
or Suspended alike, it synthesizes exactly one voice at the frequency of
the scale note selected by the uniform draw. -/
theorem claim_C1_amended (ops : List EngineOp) (now rand : ℚ)
    (h0 : 0 ≤ rand) (h1 : rand < 1) :
    ((runEngine ops).playRandomNote now rand = [] ↔
      (runEngine ops).state = EngineState.uninitialized) ∧
    ((runEngine ops).state ≠ EngineState.uninitialized →
      ∃ note ∈ PENTATONIC_SCALE,
        (runEngine ops).playRandomNote now rand = [playTone now note.freq]) := by
  obtain ⟨hen, -⟩ := engineInv_run ops
  have hidx : Int.toNat ⌊rand * (PENTATONIC_SCALE.length : ℚ)⌋ < 5 := by
    have hlen : ((PENTATONIC_SCALE.length : ℚ)) = 5 := by norm_num [PENTATONIC_SCALE]
    rw [hlen]
    have h5 : rand * 5 < 5 := by nlinarith
    have hf : ⌊rand * (5 : ℚ)⌋ < 5 := by
      have := Int.floor_lt.mpr (show rand * 5 < ((5 : ℤ) : ℚ) by exact_mod_cast h5)
      exact_mod_cast this
    have hnn : 0 ≤ ⌊rand * (5 : ℚ)⌋ := Int.floor_nonneg.mpr (by positivity)
    omega
  cases hctx : (runEngine ops).context with
  | none =>
    have hst : (runEngine ops).state = EngineState.uninitialized := by
      simp [AudioService.state, hctx]
    have hplay : (runEngine ops).playRandomNote now rand = [] := by
      simp [AudioService.playRandomNote, hctx]
    exact ⟨⟨fun _ => hst, fun _ => hplay⟩, fun hne => absurd hst hne⟩
  | some c =>
    have hen2 : (runEngine ops).isEnabled = true := by
      rw [hen, hctx]
      rfl
    have hguard : ¬((runEngine ops).context = none ∨
        (runEngine ops).isEnabled = false) := by
      rintro (h | h)
      · rw [hctx] at h; exact Option.some_ne_none c h
      · rw [hen2] at h; cases h
    have hplay : (runEngine ops).playRandomNote now rand =
        [playTone now ((PENTATONIC_SCALE.getD
          (Int.toNat ⌊rand * (PENTATONIC_SCALE.length : ℚ)⌋) ⟨0, ""⟩).freq)] := by
      simp only [AudioService.playRandomNote]
      rw [if_neg hguard]
    have hst : (runEngine ops).state ≠ EngineState.uninitialized := by
      cases c <;> simp [AudioService.state, hctx]
    constructor
    · rw [hplay]
      exact ⟨fun h => absurd h (List.cons_ne_nil _ _), fun h => absurd h hst⟩
    · intro _
      refine ⟨PENTATONIC_SCALE.getD
        (Int.toNat ⌊rand * (PENTATONIC_SCALE.length : ℚ)⌋) ⟨0, ""⟩, ?_, hplay⟩
      have hlen5 : PENTATONIC_SCALE.length = 5 := rfl
      rw [List.getD_eq_getElem?_getD,
        List.getElem?_eq_getElem (hlen5 ▸ hidx)]
      simp only [Option.getD_some]
      exact List.getElem_mem _

/-- C1 amended witness: after one confirmed `init()` the engine runs, and
`playRandomNote()` with the draw 1/2 synthesizes exactly one voice at a
scale-note frequency; in particular the call is not the empty action. -/
theorem claim_C1_amended_witness :
    ((runEngine [EngineOp.init ⟨CtxState.running, true⟩]).playRandomNote
        0 (1/2) = [] ↔
      (runEngine [EngineOp.init ⟨CtxState.running, true⟩]).state =
        EngineState.uninitialized) ∧
    (∃ note ∈ PENTATONIC_SCALE,
      (runEngine [EngineOp.init ⟨CtxState.running, true⟩]).playRandomNote
        0 (1/2) = [playTone 0 note.freq]) :=
  ⟨(claim_C1_amended [EngineOp.init ⟨CtxState.running, true⟩] 0 (1/2)
      (by norm_num) (by norm_num)).1,
   (claim_C1_amended [EngineOp.init ⟨CtxState.running, true⟩] 0 (1/2)
      (by norm_num) (by norm_num)).2 (by decide)⟩

lemma init_transition (p : Platform) (s : AudioService) (h : EngineInv s) :
    ((s.init p).state = s.state ∨
      (s.state = EngineState.uninitialized ∧
        ((s.init p).state = EngineState.running ∨
         (s.init p).state = EngineState.suspended)) ∨
      (s.state = EngineState.suspended ∧
        (s.init p).state = EngineState.running)) ∧
    (s.state = EngineState.running → s.init p = s) ∧
    (s.state = EngineState.suspended → p.resumeOk = true →
      (s.init p).state = EngineState.running) ∧
    (s.state = EngineState.uninitialized →
      (s.init p).handlesCreated = s.handlesCreated + 1) ∧
    (s.state ≠ EngineState.uninitialized →
      (s.init p).handlesCreated = s.handlesCreated) ∧
    (s.context ≠ none → (s.init p).context ≠ none) ∧
    (s.state = EngineState.uninitialized →
      (s.init p).state = EngineState.running ∨
      (s.init p).state = EngineState.suspended) := by
  obtain ⟨ctx, en, hnd⟩ := s
  obtain ⟨h1, h2⟩ := h
  obtain ⟨ns, ro⟩ := p
  simp only [EngineInv] at h1 h2
  cases ctx with
  | none =>
    simp only [Option.isSome_none, Bool.false_eq_true, if_false] at h1 h2
    subst h1 h2
    cases ns <;> cases ro <;>
      simp [AudioService.init, AudioService.state]
  | some c =>
    simp only [Option.isSome_some, if_true] at h1 h2
    subst h1 h2
    cases c <;> cases ns <;> cases ro <;>
      simp [AudioService.init, AudioService.state]

/-- C5: the observable state of the audio engine changes only through
`init()`; the only transitions are Uninitialized→Running,
Uninitialized→Suspended (the first `init()`, which creates the single
context handle) and Suspended→Running (a later `init()` whose resume the
platform confirms); `init()` on a Running engine is a no-op; at most one
handle is ever created, only by the Uninitialized-state `init()`, and an
existing handle is never destroyed. -/
theorem claim_C5_lifecycle (ops : List EngineOp) (op : EngineOp) :
    ((runEngine (ops ++ [op])).state = (runEngine ops).state ∨
      ((runEngine ops).state = EngineState.uninitialized ∧
        ((runEngine (ops ++ [op])).state = EngineState.running ∨
         (runEngine (ops ++ [op])).state = EngineState.suspended)) ∨
      ((runEngine ops).state = EngineState.suspended ∧
        (runEngine (ops ++ [op])).state = EngineState.running)) ∧
    ((runEngine (ops ++ [op])).state ≠ (runEngine ops).state →
      ∃ p, op = EngineOp.init p) ∧
    (∀ p, op = EngineOp.init p →
      (runEngine ops).state = EngineState.running →
      runEngine (ops ++ [op]) = runEngine ops) ∧
    (∀ p, op = EngineOp.init p →
      (runEngine ops).state = EngineState.suspended → p.resumeOk = true →
      (runEngine (ops ++ [op])).state = EngineState.running) ∧
    (runEngine ops).handlesCreated ≤ 1 ∧
    (∀ p, op = EngineOp.init p →
      (runEngine ops).state = EngineState.uninitialized →
      (runEngine (ops ++ [op])).handlesCreated =
        (runEngine ops).handlesCreated + 1) ∧
    ((runEngine ops).state ≠ EngineState.uninitialized →
      (runEngine (ops ++ [op])).handlesCreated =
        (runEngine ops).handlesCreated) ∧
    ((runEngine ops).context ≠ none →
      (runEngine (ops ++ [op])).context ≠ none) ∧
    (∀ p, op = EngineOp.init p →
      (runEngine ops).state = EngineState.uninitialized →
      (runEngine (ops ++ [op])).state = EngineState.running ∨
      (runEngine (ops ++ [op])).state = EngineState.suspended) := by
  have hinv := engineInv_run ops
  rw [runEngine_concat]
  have hle : (runEngine ops).handlesCreated ≤ 1 := by
    rw [hinv.2]
    split <;> norm_num
  cases op with
  | play now rand =>
    refine ⟨Or.inl rfl, fun h => absurd rfl h, ?_, ?_, hle, ?_, fun _ => rfl,
      fun h => h, ?_⟩
    · intro p hp
      exact absurd hp (by simp [applyEngineOp])
    · intro p hp
      exact absurd hp (by simp [applyEngineOp])
    · intro p hp
      exact absurd hp (by simp [applyEngineOp])
    · intro p hp
      exact absurd hp (by simp [applyEngineOp])
  | init p =>
    have ht := init_transition p (runEngine ops) hinv
    refine ⟨ht.1, fun _ => ⟨p, rfl⟩, ?_, ?_, hle, ?_, ht.2.2.2.2.1,
      ht.2.2.2.2.2.1, ?_⟩
    · intro q hq hrun
      have : q = p := by injection hq with h; exact h.symm
      subst this
      exact ht.2.1 hrun
    · intro q hq hsus hok
      have : q = p := by injection hq with h; exact h.symm
      subst this
      exact ht.2.2.1 hsus hok
    · intro q hq huninit
      have : q = p := by injection hq with h; exact h.symm
      subst this
      exact ht.2.2.2.1 huninit
    · intro q hq huninit
      have : q = p := by injection hq with h; exact h.symm
      subst this
      exact ht.2.2.2.2.2.2 huninit

/-- C5 witness: from the fresh engine, a first `init()` on a deferring
platform moves Uninitialized→Suspended creating the one handle, and a
second confirmed `init()` moves Suspended→Running without creating
another. -/
theorem claim_C5_lifecycle_witness :
    (runEngine ([EngineOp.init ⟨CtxState.suspended, false⟩])).state =
      EngineState.suspended ∧
    (runEngine ([] ++ [EngineOp.init ⟨CtxState.suspended, false⟩])).handlesCreated
      = (runEngine []).handlesCreated + 1 ∧
    (runEngine ([EngineOp.init ⟨CtxState.suspended, false⟩] ++
        [EngineOp.init ⟨CtxState.running, true⟩])).state =
      EngineState.running ∧
    (runEngine ([EngineOp.init ⟨CtxState.suspended, false⟩] ++
        [EngineOp.init ⟨CtxState.running, true⟩])).handlesCreated =
      (runEngine [EngineOp.init ⟨CtxState.suspended, false⟩]).handlesCreated :=
  ⟨by decide,
   (claim_C5_lifecycle [] (EngineOp.init ⟨CtxState.suspended, false⟩)).2.2.2.2.2.1
      ⟨CtxState.suspended, false⟩ rfl (by decide),
   (claim_C5_lifecycle [EngineOp.init ⟨CtxState.suspended, false⟩]
      (EngineOp.init ⟨CtxState.running, true⟩)).2.2.2.1
      ⟨CtxState.running, true⟩ rfl (by decide) rfl,
   (claim_C5_lifecycle [EngineOp.init ⟨CtxState.suspended, false⟩]
      (EngineOp.init ⟨CtxState.running, true⟩)).2.2.2.2.2.2.1 (by decide)⟩

/-! ## Field-count bookkeeping -/

lemma countFrames_concat (ops : List FOp) (o : FOp) :
    countFrames (ops ++ [o]) =
      countFrames ops + (if o.isFrame then 1 else 0) := by
  simp [countFrames, List.countP_append, List.countP_cons]

lemma spawnElapsed_concat_spawn (ops : List FOp) (x y : Option ℚ) (rx ry : ℚ) :
    spawnElapsed (ops ++ [FOp.spawn x y rx ry]) = spawnElapsed ops ++ [0] := by
  induction ops with
  | nil => rfl
  | cons o t ih =>
    cases o with
    | spawn a b u v =>
      show countFrames (t ++ [FOp.spawn x y rx ry]) ::
        spawnElapsed (t ++ [FOp.spawn x y rx ry]) = _
      rw [countFrames_concat, ih]
      simp [FOp.isFrame, spawnElapsed]
    | frame =>
      show spawnElapsed (t ++ [FOp.spawn x y rx ry]) = _
      rw [ih]
      rfl

lemma spawnElapsed_concat_frame (ops : List FOp) :
    spawnElapsed (ops ++ [FOp.frame]) = (spawnElapsed ops).map (· + 1) := by
  induction ops with
  | nil => rfl
  | cons o t ih =>
    cases o with
    | spawn a b u v =>
      show countFrames (t ++ [FOp.frame]) :: spawnElapsed (t ++ [FOp.frame]) = _
      rw [countFrames_concat, ih]
      simp [FOp.isFrame, spawnElapsed]
    | frame =>
      show spawnElapsed (t ++ [FOp.frame]) = _
      rw [ih]
      rfl

lemma runField_concat (c : Canvas) (ops : List FOp) (op : FOp) :
    runField c (ops ++ [op]) = applyFOp c (runField c ops) op := by
  simp [runField, List.foldl_append]

lemma frame_ages (l : List Ripple)
    (h : ∀ r ∈ l, r.active = true ∧ r.maxAge = 100) :
    ((l.map Ripple.update).filter (fun r => r.active)).map (fun r => r.age) =
      ((l.map (fun r => r.age)).map (· + 1)).filter (fun a => a ≤ 100) ∧
    ∀ r ∈ (l.map Ripple.update).filter (fun r => r.active),
      r.active = true ∧ r.maxAge = 100 := by
  induction l with
  | nil => exact ⟨rfl, by intro r hr; cases hr⟩
  | cons r t ih =>
    obtain ⟨hact, hmax⟩ := h r (List.mem_cons_self r t)
    have ht := ih fun q hq => h q (List.mem_cons_of_mem r hq)
    by_cases hkeep : r.age + 1 ≤ 100
    · have hup : (Ripple.update r).active = true := by
        simp [Ripple.update, hmax, hact]
        omega
      constructor
      · simp only [List.map_cons, List.filter_cons, hup, if_true]
        rw [if_pos (decide_eq_true hkeep), ht.1]
        simp [Ripple.update]
      · intro q hq
        simp only [List.map_cons, List.filter_cons, hup, if_true] at hq
        rcases List.mem_cons.mp hq with hq | hq
        · subst hq
          exact ⟨hup, by simp [Ripple.update, hmax]⟩
        · exact ht.2 q hq
    · have hup : (Ripple.update r).active = false := by
        simp [Ripple.update, hmax]
        omega
      constructor
      · simp only [List.map_cons, List.filter_cons, hup]
        simp only [Bool.false_eq_true, if_false]
        rw [if_neg (by simp only [decide_eq_true_eq]; omega)]
        exact ht.1
      · intro q hq
        simp only [List.map_cons, List.filter_cons, hup, Bool.false_eq_true,
          if_false] at hq
        exact ht.2 q hq

lemma filter_bump (l : List ℕ) :
    ((l.filter (fun a => a ≤ 100)).map (· + 1)).filter (fun a => a ≤ 100) =
      (l.map (· + 1)).filter (fun a => a ≤ 100) := by
  induction l with
  | nil => rfl
  | cons a t ih =>
    by_cases h : a ≤ 100 <;> by_cases h2 : a + 1 ≤ 100
    · simp [h, h2, ih]
    · simp [h, h2, ih]
    · omega
    · simp [h, h2, ih]

lemma runField_inv (c : Canvas) (ops : List FOp) :
    (∀ r ∈ runField c ops, r.active = true ∧ r.maxAge = 100) ∧
    (runField c ops).map (fun r => r.age) =
      (spawnElapsed ops).filter (fun a => a ≤ 100) := by
  induction ops using List.reverseRecOn with
  | nil =>
    exact ⟨(by intro r hr; cases hr), rfl⟩
  | append_singleton t o ih =>
    rw [runField_concat]
    cases o with
    | spawn x y rx ry =>
      rw [spawnElapsed_concat_spawn]
      show (∀ r ∈ addRipple (some c) x y rx ry (runField c t), _) ∧
        (addRipple (some c) x y rx ry (runField c t)).map _ = _
      simp only [addRipple]
      constructor
      · intro r hr
        rcases List.mem_append.mp hr with hr | hr
        · exact ih.1 r hr
        · rcases List.mem_singleton.mp hr with rfl
          exact ⟨rfl, rfl⟩
      · rw [List.map_append, ih.2, List.filter_append]
        rfl
    | frame =>
      rw [spawnElapsed_concat_frame]
      show (∀ r ∈ (render (runField c t)).1, _) ∧
        ((render (runField c t)).1).map _ = _
      rw [render_spec]
      have hf := frame_ages (runField c t) ih.1
      refine ⟨hf.2, ?_⟩
      rw [hf.1, ih.2, filter_bump]

lemma countFrames_replicate (n : ℕ) :
    countFrames (List.replicate n FOp.frame) = n := by
  induction n with
  | zero => rfl
  | succ k ih =>
    show countFrames (FOp.frame :: List.replicate k FOp.frame) = k + 1
    simp only [countFrames, List.countP_cons] at ih ⊢
    rw [ih]
    rfl

/-- C6: after any interleaving of spawns and render frames, the field
holds exactly the spawns whose elapsed frame count is at most `maxAge`
(= 100); in particular a single spawn followed by 150 or more frames
leaves the field empty forever after; and the backwards splice loop of a
render frame updates every entity exactly once, keeps exactly the
still-active ones in order, and draws every updated entity exactly once —
removal neither skips nor double-processes a neighbour. -/
theorem claim_C6_field_count :
    (∀ (c : Canvas) (ops : List FOp),
      (runField c ops).length =
        (spawnElapsed ops).countP (fun a => a ≤ 100)) ∧
    (∀ (c : Canvas) (x y : Option ℚ) (rx ry : ℚ) (k : ℕ),
      runField c (FOp.spawn x y rx ry :: List.replicate (150 + k) FOp.frame)
        = []) ∧
    (∀ l : List Ripple,
      render l = ((l.map Ripple.update).filter (fun r => r.active),
        (l.map Ripple.update).reverse)) := by
  have hcount : ∀ (c : Canvas) (ops : List FOp),
      (runField c ops).length =
        (spawnElapsed ops).countP (fun a => a ≤ 100) := by
    intro c ops
    have h := (runField_inv c ops).2
    have hlen := congrArg List.length h
    rw [List.length_map] at hlen
    rw [hlen, List.countP_eq_length_filter]
  refine ⟨hcount, ?_, render_spec⟩
  intro c x y rx ry k
  have h := hcount c (FOp.spawn x y rx ry :: List.replicate (150 + k) FOp.frame)
  have helapsed :
      spawnElapsed (FOp.spawn x y rx ry :: List.replicate (150 + k) FOp.frame)
        = [150 + k] := by
    show countFrames (List.replicate (150 + k) FOp.frame) ::
      spawnElapsed (List.replicate (150 + k) FOp.frame) = _
    rw [countFrames_replicate]
    have : ∀ n, spawnElapsed (List.replicate n FOp.frame) = [] := by
      intro n
      induction n with
      | zero => rfl
      | succ m ih => exact ih
    rw [this]
  rw [helapsed] at h
  have hzero : ([150 + k] : List ℕ).countP (fun a => a ≤ 100) = 0 := by
    simp only [List.countP_cons, List.countP_nil, decide_eq_true_eq]
    rw [if_neg (by omega)]
  rw [hzero] at h
  exact List.length_eq_zero.mp h

/-- C2 counterexample: a ripple legitimately reached by 100 updates from
creation (age = maxAge = 100, still active) is, in its next render pass,
updated to age 101 — which sets `active` to false — and is then still
drawn once, with `active = false`, before being spliced out.  So "once
active becomes false the entity is never drawn" fails for the final pass. -/
theorem claim_C2_counterexample :
    Ripple.update^[100] (Ripple.create 0 0) = ⟨0, 0, 100, 100, true⟩ ∧
    render [⟨0, 0, 100, 100, true⟩] = ([], [⟨0, 0, 101, 100, false⟩]) ∧
    (⟨0, 0, 101, 100, false⟩ : Ripple).active = false := by
  refine ⟨by decide, ?_, rfl⟩
  show renderPass (passAt [⟨0, 0, 100, 100, true⟩] [] 0) 0 = _
  decide

/-- C2 amended: the invariant `active = (age ≤ maxAge)` holds after
creation and is preserved by every update, and the render pass removes an
entity in the very frame its update deactivates it — every survivor of a
pass is active, so a deactivated entity is never updated or drawn in any
later frame — but within that final pass the entity is drawn exactly once
more, after `active` has become false (the loop updates, draws, then
removes). -/
theorem claim_C2_amended :
    (∀ x y : ℚ, ((Ripple.create x y).active = true ↔
      (Ripple.create x y).age ≤ (Ripple.create x y).maxAge)) ∧
    (∀ r : Ripple, (r.active = true ↔ r.age ≤ r.maxAge) →
      (r.update.active = true ↔ r.update.age ≤ r.update.maxAge)) ∧
    (∀ l : List Ripple,
      (render l).1 = (l.map Ripple.update).filter (fun r => r.active) ∧
      (render l).2 = (l.map Ripple.update).reverse ∧
      ∀ r ∈ (render l).1, r.active = true) := by
  refine ⟨?_, ?_, ?_⟩
  · intro x y
    simp [Ripple.create]
  · intro r h
    simp only [Ripple.update]
    by_cases hc : r.age + 1 > r.maxAge
    · rw [if_pos hc]
      constructor
      · intro hfalse
        exact absurd hfalse (by simp)
      · intro hle
        omega
    · rw [if_neg hc]
      have hle : r.age + 1 ≤ r.maxAge := by omega
      have hage : r.age ≤ r.maxAge := by omega
      exact ⟨fun _ => hle, fun _ => h.mpr hage⟩
  · intro l
    refine ⟨(render_spec l) ▸ rfl, (render_spec l) ▸ rfl, ?_⟩
    intro r hr
    rw [render_spec] at hr
    exact List.of_mem_filter hr

/-- C2 amended witness: the invariant holds for a fresh ripple at the
origin and is preserved by updating the age-100 ripple; a one-element
pass at age 100 keeps no survivor, draws the updated entity once, and
every survivor of that pass is active (vacuously). -/
theorem claim_C2_amended_witness :
    (((Ripple.create 0 0).active = true ↔
      (Ripple.create 0 0).age ≤ (Ripple.create 0 0).maxAge)) ∧
    (((⟨0, 0, 100, 100, true⟩ : Ripple).update.active = true ↔
      (⟨0, 0, 100, 100, true⟩ : Ripple).update.age ≤
        (⟨0, 0, 100, 100, true⟩ : Ripple).update.maxAge)) ∧
    (render [⟨0, 0, 100, 100, true⟩]).1 =
      ([⟨0, 0, 100, 100, true⟩].map Ripple.update).filter
        (fun r => r.active) ∧
    (render [⟨0, 0, 100, 100, true⟩]).2 =
      ([⟨0, 0, 100, 100, true⟩].map Ripple.update).reverse :=
  ⟨claim_C2_amended.1 0 0,
   claim_C2_amended.2.1 ⟨0, 0, 100, 100, true⟩ (by decide),
   (claim_C2_amended.2.2 [⟨0, 0, 100, 100, true⟩]).1,
   (claim_C2_amended.2.2 [⟨0, 0, 100, 100, true⟩]).2.1⟩

/-- C3 counterexample: in the render pass that retires an age-100 ripple,
the entity is drawn once more at age 101, where the radius formula gives
`5 + 75 * (101/100) = 323/4 = 80.75`, outside the claimed interval
[5, 80]. -/
theorem claim_C3_counterexample :
    (render [⟨0, 0, 100, 100, true⟩]).2 = [⟨0, 0, 101, 100, false⟩] ∧
    (⟨0, 0, 101, 100, false⟩ : Ripple).currentRadius = 323/4 ∧
    ¬((⟨0, 0, 101, 100, false⟩ : Ripple).currentRadius ≤ 80) := by
  refine ⟨?_,
    by norm_num [Ripple.currentRadius, Ripple.progress, VISUAL_CONFIG],
    by norm_num [Ripple.currentRadius, Ripple.progress, VISUAL_CONFIG]⟩
  show (renderPass (passAt [⟨0, 0, 100, 100, true⟩] [] 0) 0).2 = _
  decide

/-- C3 amended: with `maxAge = 100` the drawn radius is exactly
`5 + (maxRadius − 5) * (age/maxAge)` and is strictly increasing in age;
at every drawn age up to `maxAge` it lies in [5, 80]; the one extra draw
of the removal pass, at age `maxAge + 1`, has radius 323/4 = 80.75; and
no draw record of a pass over a well-aged field exceeds age
`maxAge + 1`. -/
theorem claim_C3_amended :
    (∀ r : Ripple, r.maxAge = 100 →
      r.currentRadius = 5 + 75 * ((r.age : ℚ) / 100)) ∧
    (∀ r q : Ripple, r.maxAge = 100 → q.maxAge = 100 → r.age < q.age →
      r.currentRadius < q.currentRadius) ∧
    (∀ r : Ripple, r.maxAge = 100 → r.age ≤ 100 →
      5 ≤ r.currentRadius ∧ r.currentRadius ≤ 80) ∧
    (∀ r : Ripple, r.maxAge = 100 → r.age = 101 →
      r.currentRadius = 323/4) ∧
    (∀ l : List Ripple, (∀ r ∈ l, r.age ≤ r.maxAge) →
      ∀ d ∈ (render l).2, d.age ≤ d.maxAge + 1) := by
  have hform : ∀ r : Ripple, r.maxAge = 100 →
      r.currentRadius = 5 + 75 * ((r.age : ℚ) / 100) := by
    intro r hr
    simp [Ripple.currentRadius, Ripple.progress, VISUAL_CONFIG, hr]
    norm_num
  refine ⟨hform, ?_, ?_, ?_, ?_⟩
  · intro r q hr hq hlt
    rw [hform r hr, hform q hq]
    have : (r.age : ℚ) < (q.age : ℚ) := by exact_mod_cast hlt
    nlinarith
  · intro r hr hle
    rw [hform r hr]
    have h0 : (0 : ℚ) ≤ (r.age : ℚ) := by positivity
    have h100 : (r.age : ℚ) ≤ 100 := by exact_mod_cast hle
    constructor <;> nlinarith
  · intro r hr hage
    rw [hform r hr, hage]
    norm_num
  · intro l hl d hd
    rw [render_spec] at hd
    simp only [List.mem_reverse, List.mem_map] at hd
    obtain ⟨r, hrmem, rfl⟩ := hd
    have := hl r hrmem
    simp only [Ripple.update]
    omega

/-- C3 amended witness: at ages 50 and 100 the formula, monotonicity and
bounds hold concretely, the boundary draw at age 101 computes to 80.75,
and the draw records of a pass over the age-50 singleton field stay
within age `maxAge + 1`. -/
theorem claim_C3_amended_witness :
    (⟨0, 0, 50, 100, true⟩ : Ripple).currentRadius =
      5 + 75 * (((50 : ℕ) : ℚ) / 100) ∧
    (⟨0, 0, 50, 100, true⟩ : Ripple).currentRadius <
      (⟨0, 0, 100, 100, true⟩ : Ripple).currentRadius ∧
    (5 ≤ (⟨0, 0, 50, 100, true⟩ : Ripple).currentRadius ∧
      (⟨0, 0, 50, 100, true⟩ : Ripple).currentRadius ≤ 80) ∧
    (⟨0, 0, 101, 100, false⟩ : Ripple).currentRadius = 323/4 ∧
    (∀ d ∈ (render [⟨0, 0, 50, 100, true⟩]).2, d.age ≤ d.maxAge + 1) :=
  ⟨claim_C3_amended.1 ⟨0, 0, 50, 100, true⟩ rfl,
   claim_C3_amended.2.1 ⟨0, 0, 50, 100, true⟩ ⟨0, 0, 100, 100, true⟩
      rfl rfl (by decide),
   claim_C3_amended.2.2.1 ⟨0, 0, 50, 100, true⟩ rfl (by decide),
   claim_C3_amended.2.2.2.1 ⟨0, 0, 101, 100, false⟩ rfl rfl,
   claim_C3_amended.2.2.2.2 [⟨0, 0, 50, 100, true⟩] (by decide)⟩

end Resonance
